import Mathlib

/-!
Verification of the xsd2json converter (Python) against its natural-language
specification.  The Python modules `schema_model.py` and `converter.py` are
shallowly embedded below: Python dicts with insertion order become
association lists (`dictInsert` updates in place, appends fresh keys),
optional dict keys become `Option` fields, mutation becomes explicit state
threading.  Every definition is translated from the source function named in
its doc comment.
-/

namespace Xsd2Json

/-! ## Ordered dictionaries (Python `dict` semantics) -/

/-- Python `d[k] = v`: replace the value in place when the key exists,
append at the end otherwise. -/
def dictInsert {α : Type} (m : List (String × α)) (key : String) (v : α) :
    List (String × α) :=
  match m with
  | [] => [(key, v)]
  | (k, w) :: rest =>
    if k = key then (k, v) :: rest else (k, w) :: dictInsert rest key v

/-- Python `d.get(k)`: first (unique) binding of the key. -/
def dictGet {α : Type} (m : List (String × α)) (key : String) : Option α :=
  match m with
  | [] => none
  | (k, w) :: rest => if k = key then some w else dictGet rest key

/-- Python `d.update(other)`: insert each binding of `other` in order. -/
def dictMerge {α : Type} (m : List (String × α)) :
    List (String × α) → List (String × α)
  | [] => m
  | (k, v) :: rest => dictMerge (dictInsert m k v) rest

/-! ## Character-list string primitives

Python string operations used by `converter.py`, modelled on `List Char`
with structural recursion so that concrete witnesses evaluate by `decide`. -/

/-- Does `pat` occur at the start of `l`? -/
def leadsWith : List Char → List Char → Bool
  | [], _ => true
  | _ :: _, [] => false
  | a :: as, b :: bs => a = b && leadsWith as bs

/-- Remove a leading occurrence of `pat` from `l`, if present. -/
def dropLead : List Char → List Char → Option (List Char)
  | [], l => some l
  | _ :: _, [] => none
  | a :: as, b :: bs => if a = b then dropLead as bs else none

/-- Python `pat in s` (substring containment) on character lists. -/
def containsSeq (pat : List Char) : List Char → Bool
  | [] => leadsWith pat []
  | c :: rest => leadsWith pat (c :: rest) || containsSeq pat rest

/-- Fuelled worker for `replaceSeq`; the fuel is the input length, enough
because each replacement consumes at least one character (`pat ≠ []`). -/
def replaceSeqAux (pat rep : List Char) : Nat → List Char → List Char
  | _, [] => []
  | 0, l => l
  | fuel + 1, c :: rest =>
    match dropLead pat (c :: rest) with
    | some rem => rep ++ replaceSeqAux pat rep fuel rem
    | none => c :: replaceSeqAux pat rep fuel rest

/-- Python `s.replace(pat, rep)` for a non-empty `pat` (every call site in
the source passes a non-empty literal pattern). -/
def replaceSeq (l pat rep : List Char) : List Char :=
  if pat = [] then l else replaceSeqAux pat rep l.length l

/-- Python `s.split(sep)` for a single-character separator. -/
def splitChar (sep : Char) : List Char → List (List Char)
  | [] => [[]]
  | c :: rest =>
    let r := splitChar sep rest
    if c = sep then [] :: r
    else
      match r with
      | h :: t => (c :: h) :: t
      | [] => [[c]]

/-- String wrapper: Python `pat in s`. -/
def strContains (s pat : String) : Bool := containsSeq pat.data s.data

/-- String wrapper: Python `s.replace(pat, rep)`. -/
def strReplace (s pat rep : String) : String :=
  ⟨replaceSeq s.data pat.data rep.data⟩

/-- Python `s.split("/")[-1]` (total: defaults to `""`, unreachable since
`split` always returns a non-empty list). -/
def lastSegment (s : String) : String :=
  ⟨(splitChar '/' s.data).getLastD []⟩

/-- Python `" ".join(parts)`. -/
def joinSpace : List String → String
  | [] => ""
  | [s] => s
  | s :: rest => s ++ " " ++ joinSpace rest

/-! ## Occurrence model (`schema_model.py`, class `ElementOccurrence`) -/

/-- The `max_occurs` argument domain: an integer or the string `"unbounded"`. -/
inductive MaxOccurs where
  | unbounded
  | num (n : Int)
deriving DecidableEq, Repr

/-- `ElementOccurrence` after construction: clamped `min`/`max`. -/
structure ElementOccurrence where
  min : Int
  max : MaxOccurs
deriving DecidableEq, Repr

/-- `ElementOccurrence.__init__`:
`self.min = max(0, min_occurs)`;
`self.max = max_occurs if max_occurs == "unbounded" else max(1, int(max_occurs))`. -/
def mkElementOccurrence (minOccurs : Int) (maxOccurs : MaxOccurs) :
    ElementOccurrence :=
  { min := Max.max 0 minOccurs
    max :=
      match maxOccurs with
      | .unbounded => .unbounded
      | .num n => .num (Max.max 1 n) }

/-- `is_optional`: `self.min == 0`. -/
def ElementOccurrence.isOptional (o : ElementOccurrence) : Bool :=
  o.min = 0

/-- `is_array`: `self.max == "unbounded" or (isinstance(self.max, int) and self.max > 1)`. -/
def ElementOccurrence.isArray (o : ElementOccurrence) : Bool :=
  o.max = .unbounded ||
    (match o.max with
     | .num n => n > 1
     | .unbounded => false)

/-- `is_required`: `self.min >= 1`. -/
def ElementOccurrence.isRequired (o : ElementOccurrence) : Bool :=
  o.min ≥ 1

/-- Occurrence of a particle that never sets one
(`ElementOccurrence()` defaults: `min_occurs=1, max_occurs=1`). -/
def defaultOccurrence : ElementOccurrence := mkElementOccurrence 1 (.num 1)

/-! ## Schema object model (`schema_model.py`) -/

/-- `AttributeUse` enum. -/
inductive AttributeUse where
  | required
  | optional
  | prohibited
deriving DecidableEq, Repr

/-- `DerivationMethod` enum (`EXTENSION = "extension"`, `RESTRICTION = "restriction"`). -/
inductive DerivationMethod where
  | extension
  | restriction
deriving DecidableEq, Repr

/-- `AttributeStyle` enum from `config.py`: `atSign` embeds the value
`"prefix"` (keys written `"@" + name`), `grouped` embeds `"group"`. -/
inductive AttrStyle where
  | atSign
  | grouped
deriving DecidableEq, Repr

/-- The slice of a type object read by `_map_xsd_type_to_json_type`:
`getattr(x, 'name', '')` and `getattr(x, 'primitive_type', '')`. -/
structure TypeRef where
  name : String
  prim : Option String
deriving DecidableEq, Repr

/-- `Attribute`: name, optional simple type, use, and documentation strings
collected on its `Annotation`. -/
structure Attr where
  name : String
  atype : Option TypeRef
  use : AttributeUse
  docs : List String
deriving DecidableEq, Repr

/-- A facet value as `converter.py` consumes it: `facet.value` is either a
scalar or a list (`isinstance(facet.value, list)`). -/
inductive FacetValue where
  | single (v : String)
  | multi (vs : List String)
deriving DecidableEq, Repr

/-- `Facet` dataclass (the `fixed` flag is never read by the converter). -/
structure Facet where
  name : String
  value : FacetValue
deriving DecidableEq, Repr

/-- Concrete `ModelGroup` subclasses `Sequence`, `Choice`, `All`. -/
inductive GroupKind where
  | seq
  | choice
  | allG
deriving DecidableEq, Repr

/-- The `Particle` hierarchy: `Element` (`name`, optional named `type`,
`occurs`, documentation), `ModelGroup` (`name = ""`, child `particles`),
and the `Any` wildcard (`name = "any"`, no `type` attribute). -/
inductive Particle where
  | element (name : String) (tname : Option String) (occurs : ElementOccurrence)
      (docs : List String)
  | modelGroup (kind : GroupKind) (occurs : ElementOccurrence)
      (particles : List Particle)
  | anyWildcard (occurs : ElementOccurrence)

/-- `particle.name` (`ModelGroup.__init__` passes `""`, `Any.__init__`
passes `"any"`). -/
def Particle.pname : Particle → String
  | .element n _ _ _ => n
  | .modelGroup _ _ _ => ""
  | .anyWildcard _ => "any"

/-- `particle.occurs`. -/
def Particle.occursOf : Particle → ElementOccurrence
  | .element _ _ o _ => o
  | .modelGroup _ o _ => o
  | .anyWildcard o => o

/-- `element.type.name` when `element.type` is set; `none` both when the
`type` attribute is absent (`Any`) and when it is `None`. -/
def Particle.elemTypeName : Particle → Option String
  | .element _ t _ _ => t
  | _ => none

/-- Documentation strings of the particle's annotation. -/
def Particle.elemDocs : Particle → List String
  | .element _ _ _ d => d
  | _ => []

/-- `hasattr(particle, 'particles')`: true exactly for model groups. -/
def Particle.hasParticlesAttr : Particle → Bool
  | .modelGroup _ _ _ => true
  | _ => false

/-- `particle.particles` (empty for non-groups). -/
def Particle.childParticles : Particle → List Particle
  | .modelGroup _ _ ps => ps
  | _ => []

/-- The `Type` hierarchy restricted to what the converter reads:
`SimpleType` (with `primitive_type` and `facets`) and `ComplexType` (with
`particle` and `attributes`); both carry `base_type`, `derivation_method`
and annotation documentation. -/
inductive XSDType where
  | simpleType (name : String) (docs : List String) (prim : Option String)
      (facets : List Facet) (base : Option XSDType)
      (deriv : Option DerivationMethod)
  | complexType (name : String) (docs : List String) (particle : Option Particle)
      (attrs : List Attr) (base : Option XSDType)
      (deriv : Option DerivationMethod)

/-- `xsd_type.name`. -/
def XSDType.tName : XSDType → String
  | .simpleType n _ _ _ _ _ => n
  | .complexType n _ _ _ _ _ => n

/-- Documentation strings of `xsd_type.annotation`. -/
def XSDType.tDocs : XSDType → List String
  | .simpleType _ d _ _ _ _ => d
  | .complexType _ d _ _ _ _ => d

/-- `hasattr(xsd_type, 'facets')`: only `SimpleType` defines `facets`. -/
def XSDType.hasFacetsAttr : XSDType → Bool
  | .simpleType _ _ _ _ _ _ => true
  | .complexType _ _ _ _ _ _ => false

/-- `xsd_type.facets` (empty for complex types, which lack the attribute). -/
def XSDType.facetsOf : XSDType → List Facet
  | .simpleType _ _ _ fs _ _ => fs
  | .complexType _ _ _ _ _ _ => []

/-- The `name`/`primitive_type` slice passed to `_map_xsd_type_to_json_type`. -/
def XSDType.typeRef : XSDType → TypeRef
  | .simpleType n _ p _ _ _ => ⟨n, p⟩
  | .complexType n _ _ _ _ _ => ⟨n, none⟩

/-- `xsd_type.base_type`. -/
def XSDType.tBase : XSDType → Option XSDType
  | .simpleType _ _ _ _ b _ => b
  | .complexType _ _ _ _ b _ => b

/-- `xsd_type.derivation_method`. -/
def XSDType.tDeriv : XSDType → Option DerivationMethod
  | .simpleType _ _ _ _ _ d => d
  | .complexType _ _ _ _ _ d => d

/-- `hasattr(xsd_type, 'particle')`: only `ComplexType` defines it. -/
def XSDType.hasParticleAttr : XSDType → Bool
  | .simpleType _ _ _ _ _ _ => false
  | .complexType _ _ _ _ _ _ => true

/-- `hasattr(xsd_type, 'attributes')`: only `ComplexType` defines it. -/
def XSDType.hasAttributesAttr : XSDType → Bool
  | .simpleType _ _ _ _ _ _ => false
  | .complexType _ _ _ _ _ _ => true

/-- `xsd_type.particle` (absent on simple types). -/
def XSDType.particleOf : XSDType → Option Particle
  | .simpleType _ _ _ _ _ _ => none
  | .complexType _ _ p _ _ _ => p

/-- `xsd_type.attributes` (absent on simple types). -/
def XSDType.attrsOf : XSDType → List Attr
  | .simpleType _ _ _ _ _ _ => []
  | .complexType _ _ _ a _ _ => a

/-- `{attr.name for attr in xsd_type.base_type.attributes}` guarded by
`hasattr(xsd_type.base_type, 'attributes')`: names of the base type's
attributes when the base is a complex type, empty otherwise. -/
def XSDType.baseAttrNames (t : XSDType) : List String :=
  match t.tBase with
  | some (.complexType _ _ _ battrs _ _) => battrs.map Attr.name
  | _ => []

/-! ## JSON Schema fragments (the dict shapes built by `converter.py`) -/

/-- Schema of a single property: either the flat dict built by
`_create_element_schema` / the attribute loop (`$ref` or `type`, optional
`description`), or its array wrapping (`type: "array"`, `items`,
`minItems`, optional `maxItems`). -/
inductive ElemSchema where
  | leaf (ref : Option String) (jtype : Option String) (descr : Option String)
  | arr (items : ElemSchema) (minItems : Int) (maxItems : Option Int)
      (descr : Option String)
deriving DecidableEq, Repr

/-- `element_schema["description"] = ...` (overwrites). -/
def ElemSchema.withDescr : ElemSchema → String → ElemSchema
  | .leaf r t _, d => .leaf r t (some d)
  | .arr i mn mx _, d => .arr i mn mx (some d)

/-- Ordered `properties` map. -/
abbrev PropMap := List (String × ElemSchema)

/-- The fixed two-entry `allOf` array of the extension branch:
`[{"$ref": baseRef}, {"type": "object", "properties": props}]`. -/
structure AllOfPart where
  baseRef : String
  props : PropMap
deriving DecidableEq, Repr

/-- A per-type JSON Schema fragment.  Each field is a dict key of the
`json_schema` dict in `_create_json_schema_for_type`; `none` / `Option`
encodes key absence (`properties` is `Option` because other fragments in
the pipeline may lack the key, although this builder always sets it). -/
structure Fragment where
  schemaUri : String
  id : Option String
  title : String
  properties : Option PropMap
  description : Option String
  jtype : Option String
  enum : Option (List String)
  allOf : Option AllOfPart
  xInh : Option (DerivationMethod × String)
  required : Option (List String)
deriving DecidableEq, Repr

/-! ## Type mapping (`converter.py`) -/

/-- Python `if x != "" then x else y` chaining of `or` on strings. -/
def pyOrStr (a b : String) : String := if a ≠ "" then a else b

/-- Lowercasing as `.lower()` over the character list. -/
def lowerStr (s : String) : String := ⟨s.data.map Char.toLower⟩

/-- `any(t in s for t in pats)`. -/
def anyBucket (pats : List String) (s : String) : Bool :=
  pats.any (fun t => strContains s t)

/-- The bucket chain of `_map_xsd_type_to_json_type` applied to
`type_to_check`. -/
def typeBucket (s0 : String) : String :=
  let s := lowerStr s0
  if anyBucket ["string", "normalizedstring", "token", "name", "ncname", "id"] s
  then "string"
  else if anyBucket ["int", "integer", "long", "short", "byte"] s then "integer"
  else if anyBucket ["decimal", "double", "float"] s then "number"
  else if anyBucket ["boolean"] s then "boolean"
  else if anyBucket ["date", "time", "datetime"] s then "string"
  else "string"

/-- `_map_xsd_type_to_json_type`: `None → "string"`, otherwise bucket-match
`primitive_type or name or ''`. -/
def mapXsdTypeToJsonType (t : Option TypeRef) : String :=
  match t with
  | none => "string"
  | some r => typeBucket (pyOrStr (r.prim.getD "") (pyOrStr r.name ""))

/-- `_create_element_schema`: `$ref` for a named type else inline `"string"`
fallback, array wrapping when `occurs.is_array`, then the description. -/
def createElementSchema (p : Particle) : ElemSchema :=
  let base :=
    match p.elemTypeName with
    | some t => ElemSchema.leaf (some ("#/definitions/" ++ t)) none none
    | none => ElemSchema.leaf none (some "string") none
  let s1 :=
    if (p.occursOf).isArray then
      ElemSchema.arr base (p.occursOf).min
        (match (p.occursOf).max with
         | .num n => some n
         | .unbounded => none)
        none
    else base
  if p.elemDocs ≠ [] then s1.withDescr (joinSpace p.elemDocs) else s1

mutual

/-- `_extract_properties_from_particle` dispatch: a model group with a
non-empty `particles` list iterates its children; otherwise any particle
with a truthy `name` (elements, and the `Any` wildcard whose name is
`"any"`) is handled as a single element; everything else contributes
nothing. -/
def extractFromParticle (p : Particle) : PropMap × List String :=
  match p with
  | .modelGroup _ _ ps =>
    if ps.isEmpty then ([], [])
    else extractLoop ps [] []
  | _ =>
    if p.pname ≠ "" then
      ([(p.pname, createElementSchema p)],
       if 1 ≤ (p.occursOf).min then [p.pname] else [])
    else ([], [])

/-- The child loop of `_extract_properties_from_particle`: named children
first (the `All` and the sequence/choice arms run the same
`occurs.min >= 1` required check), then nested groups are flattened by
recursion, anything else is skipped. -/
def extractLoop (cs : List Particle) (props : PropMap) (req : List String) :
    PropMap × List String :=
  match cs with
  | [] => (props, req)
  | c :: rest =>
    if c.pname ≠ "" then
      extractLoop rest (dictInsert props c.pname (createElementSchema c))
        (if 1 ≤ (c.occursOf).min then req ++ [c.pname] else req)
    else if c.hasParticlesAttr then
      let pr := extractFromParticle c
      extractLoop rest (dictMerge props pr.1) (req ++ pr.2)
    else
      extractLoop rest props req

end

/-- `enumeration_values` collection over the list-of-`Facet` format:
`extend` for list values, `append` for scalars, in facet order. -/
def collectEnumValues : List Facet → List String
  | [] => []
  | f :: rest =>
    if f.name = "enumeration" then
      (match f.value with
       | .multi vs => vs
       | .single v => [v]) ++ collectEnumValues rest
    else collectEnumValues rest

/-- Key under which an attribute is emitted:
`f"@{attr.name}" if attr_style == "prefix" else attr.name`. -/
def styleKey : AttrStyle → String → String
  | .atSign, n => "@" ++ n
  | .grouped, n => n

/-- The dict built for one attribute: mapped `type` plus a `description`
that falls back to `f"Attribute: {attr.name}"`. -/
def attrSchema (a : Attr) : ElemSchema :=
  ElemSchema.leaf none (some (mapXsdTypeToJsonType a.atype))
    (some (if a.docs ≠ [] then joinSpace a.docs else "Attribute: " ++ a.name))

/-- The attribute loop of `_create_json_schema_for_type`: skip an attribute
whose name is in the base type's attribute names when the type has a base;
otherwise insert its schema under the styled key and, for `use = required`,
append the styled key to the `required` array (creating it on demand). -/
def processAttrs (hasBase : Bool) (baseNames : List String) (style : AttrStyle) :
    List Attr → PropMap → Option (List String) → PropMap × Option (List String)
  | [], props, req => (props, req)
  | a :: rest, props, req =>
    if hasBase ∧ a.name ∈ baseNames then
      processAttrs hasBase baseNames style rest props req
    else
      processAttrs hasBase baseNames style rest
        (dictInsert props (styleKey style a.name) (attrSchema a))
        (if a.use = .required then some (req.getD [] ++ [styleKey style a.name])
         else req)

/-- Where `additional_properties` points in each branch of
`_create_json_schema_for_type`: the top-level `properties` dict, the
`allOf[1]["properties"]` dict, or a discarded fresh dict (enum / plain
simple-type branches). -/
inductive PropTarget where
  | topLevel
  | allOfSlot
  | discarded

/-- Outcome of the branch chain at the top of
`_create_json_schema_for_type`. -/
structure BranchChoice where
  jt : Option String
  en : Option (List String)
  baseRef : Option String
  inh : Option (DerivationMethod × String)
  target : PropTarget

/-- The `if/elif/else` chain of `_create_json_schema_for_type`:
facets first (enumeration before derivation), then `base_type`
(extension vs everything else, `None` derivation included, as
restriction), then the no-derivation default whose `type` tests
`hasattr(xsd_type, 'particle') or hasattr(xsd_type, 'attributes')`. -/
def chooseBranch (t : XSDType) : BranchChoice :=
  if t.hasFacetsAttr ∧ t.facetsOf ≠ [] then
    let ev := collectEnumValues t.facetsOf
    if ev ≠ [] then ⟨some "string", some ev, none, none, .discarded⟩
    else ⟨some (mapXsdTypeToJsonType (some t.typeRef)), none, none, none, .discarded⟩
  else if t.tBase.isSome then
    let bname := (t.tBase.map XSDType.tName).getD ""
    if t.tDeriv = some .extension then
      ⟨none, none, some ("#/definitions/" ++ bname), some (.extension, bname),
        .allOfSlot⟩
    else
      ⟨some "object", none, none, some (.restriction, bname), .topLevel⟩
  else
    ⟨some (if t.hasParticleAttr || t.hasAttributesAttr then "object" else "string"),
      none, none, none, .topLevel⟩

/-- `_create_json_schema_for_type`: base dict (`$schema`, `$id`, `title`,
empty `properties`, optional `description`), branch selection, particle
extraction merged into `additional_properties`, `required` created only
when non-empty, then the attribute loop writing into the same target. -/
def createJsonSchemaForType (style : AttrStyle) (t : XSDType) (ns : String) :
    Fragment :=
  let base0 : Fragment :=
    { schemaUri := "https://json-schema.org/draft/2020-12/schema"
      id := some (ns ++ "/" ++ t.tName)
      title := "Generated JSON Schema for " ++ t.tName
      properties := some []
      description := if t.tDocs ≠ [] then some (joinSpace t.tDocs) else none
      jtype := none
      enum := none
      allOf := none
      xInh := none
      required := none }
  let b := chooseBranch t
  let pr :=
    match t.particleOf with
    | some p => extractFromParticle p
    | none => ([], [])
  let req1 : Option (List String) := if pr.2 ≠ [] then some pr.2 else none
  let m1 := dictMerge [] pr.1
  let ar := processAttrs t.tBase.isSome t.baseAttrNames style t.attrsOf m1 req1
  match b.target with
  | .topLevel =>
    { base0 with
        jtype := b.jt, enum := b.en, xInh := b.inh,
        properties := some ar.1, required := ar.2 }
  | .allOfSlot =>
    { base0 with
        allOf := some { baseRef := b.baseRef.getD "", props := ar.1 },
        xInh := b.inh, required := ar.2 }
  | .discarded =>
    { base0 with jtype := b.jt, enum := b.en, required := ar.2 }

/-! ## Document assembly (`converter.py`) -/

/-- `{k: v for k, v in schema.items() if k != "$id"}`. -/
def fragmentMinusId (f : Fragment) : Fragment := { f with id := none }

/-- Name extraction in `_generate_single_file_output`: last `/`-segment of
`$id` when it contains a slash, else the title with spaces removed (the
subsequent `.replace("Generated JSON Schema for ", "")` can never match
once the spaces are gone, exactly as in the source). -/
def schemaName (f : Fragment) : String :=
  let sid := f.id.getD "unknown"
  if strContains sid "/" then lastSegment sid
  else strReplace (strReplace f.title " " "") "Generated JSON Schema for " ""

/-- The single-file output document: either one fragment verbatim or the
consolidated wrapper (`$id http://example.com/consolidated`,
`type: "object"`, with `properties` holding `$ref` strings and
`definitions` holding the fragments). -/
inductive SingleFileDoc where
  | single (f : Fragment)
  | consolidated (title : String) (props : List (String × String))
      (defs : List (String × Fragment))
deriving DecidableEq, Repr

/-- The fragment loop of `_generate_single_file_output`:
`definitions[name] = fragment-minus-$id`,
`properties[name] = {"$ref": "#/definitions/" + name}`. -/
def consolidateLoop :
    List Fragment → List (String × Fragment) → List (String × String) →
      List (String × Fragment) × List (String × String)
  | [], defs, props => (defs, props)
  | s :: rest, defs, props =>
    let nm := schemaName s
    consolidateLoop rest (dictInsert defs nm (fragmentMinusId s))
      (dictInsert props nm ("#/definitions/" ++ nm))

/-- `_generate_single_file_output`: one schema is written directly,
otherwise the consolidated document titled `"Consolidated JSON Schema"`. -/
def generateSingleFileOutput (schemas : List Fragment) : SingleFileDoc :=
  match schemas with
  | [s] => .single s
  | _ =>
    let dp := consolidateLoop schemas [] []
    .consolidated "Consolidated JSON Schema" dp.2 dp.1

/-- `_extract_type_name`: strip the `"Generated JSON Schema for "` prefix
from the title when present, else the last `/`-segment of `$id`, else
`"UnknownType"`. -/
def extractTypeName (f : Fragment) : String :=
  if strContains f.title "Generated JSON Schema for" then
    strReplace f.title "Generated JSON Schema for " ""
  else if strContains (f.id.getD "") "/" then lastSegment (f.id.getD "")
  else "UnknownType"

/-- The per-type document written by `_generate_multi_file_output`: the
fragment minus `$id`, then
`individual_schema["$id"] = f"http://example.com/types/{type_name}"`
(a hard-coded host, not the schema's target namespace). -/
def multiFileIndividualSchema (f : Fragment) : Fragment :=
  { fragmentMinusId f with
      id := some ("http://example.com/types/" ++ extractTypeName f) }

/-! ## Filename sanitisation (`_sanitize_filename`) -/

/-- Regex class `[a-z0-9]` (first group of the camel-case pattern). -/
def isLowerDigit (c : Char) : Bool :=
  ('a' ≤ c && c ≤ 'z') || ('0' ≤ c && c ≤ '9')

/-- Regex class `[A-Z]` (second group of the camel-case pattern). -/
def isUpperAZ (c : Char) : Bool := 'A' ≤ c && c ≤ 'Z'

/-- Characters kept by `re.sub('[^a-z0-9-]', '-', name)`. -/
def isAllowed (c : Char) : Bool :=
  ('a' ≤ c && c ≤ 'z') || ('0' ≤ c && c ≤ '9') || c = '-'

/-- `re.sub('([a-z0-9])([A-Z])', r'\1-\2', name)`: left-to-right scan,
non-overlapping two-character matches, hyphen inserted between the groups. -/
def camelSplit : List Char → List Char
  | a :: b :: rest =>
    if isLowerDigit a && isUpperAZ b then a :: '-' :: b :: camelSplit rest
    else a :: camelSplit (b :: rest)
  | l => l

/-- `re.sub('[^a-z0-9-]', '-', name)` after lowering. -/
def replaceDisallowed (l : List Char) : List Char :=
  l.map (fun c => if isAllowed c then c else '-')

/-- `re.sub('-+', '-', name)`: the flag says whether the previous output
character was a hyphen (i.e. we are inside a hyphen run). -/
def collapseHyphens : Bool → List Char → List Char
  | _, [] => []
  | prevH, c :: rest =>
    if c = '-' then
      if prevH then collapseHyphens true rest
      else '-' :: collapseHyphens true rest
    else c :: collapseHyphens false rest

/-- Trailing-hyphen removal (second half of `name.strip('-')`). -/
def dropTrailingHyphens : List Char → List Char
  | [] => []
  | c :: rest =>
    match dropTrailingHyphens rest with
    | [] => if c = '-' then [] else [c]
    | r => c :: r

/-- `name.strip('-')`. -/
def stripHyphens (l : List Char) : List Char :=
  dropTrailingHyphens (l.dropWhile (fun c => c = '-'))

/-- `_sanitize_filename` on the character list: camel-case split, lowercase,
replace disallowed characters, collapse hyphen runs, strip end hyphens. -/
def sanitizeChars (l : List Char) : List Char :=
  stripHyphens (collapseHyphens false
    (replaceDisallowed ((camelSplit l).map Char.toLower)))

/-- `_sanitize_filename`. -/
def sanitizeFilename (s : String) : String := ⟨sanitizeChars s.data⟩

/-! ## Conversion pipeline control flow (`Converter.convert` /
`_transform_to_json`) -/

/-- The slice of `ConversionResult` relevant to error handling, with the
JSON fragments standing in for the output files they are serialised to. -/
structure ConvResultModel where
  success : Bool
  outputs : List Fragment
  errors : List String
deriving DecidableEq, Repr

/-- The per-type loop of `_transform_to_json`.  There is no try/except
inside the loop, so the first type whose conversion raises propagates its
exception; `conv` stands for the effect of `_create_json_schema_for_type`
on one type (`Except.error` = a raised exception). -/
def transformToJson (conv : XSDType → Except String Fragment) :
    List XSDType → Except String (List Fragment)
  | [] => .ok []
  | t :: rest =>
    match conv t with
    | .error e => .error e
    | .ok f =>
      match transformToJson conv rest with
      | .error e => .error e
      | .ok fs => .ok (f :: fs)

/-- `Converter.convert` around the transform step: the only handler is the
top-level `except Exception`, which appends the single string
`f"Conversion failed: {e}"` and returns a failed result with no output
files. -/
def convertModel (conv : XSDType → Except String Fragment)
    (types : List XSDType) : ConvResultModel :=
  match transformToJson conv types with
  | .ok frags => { success := true, outputs := frags, errors := [] }
  | .error e =>
    { success := false, outputs := [],
      errors := ["Conversion failed: " ++ e] }

/-! ## Concrete instances used by witnesses and counterexamples -/

/-- A simple type with three enumeration facet values. -/
def colorEnumType : XSDType :=
  .simpleType "Color" [] none
    [⟨"enumeration", .multi ["red", "green", "blue"]⟩] none none

/-- A complex type with no particle, no attributes, no enum, no base. -/
def emptyComplexType : XSDType := .complexType "EmptyType" [] none [] none none

/-- Optional attribute `version` of string type. -/
def versionAttr : Attr :=
  { name := "version", atype := some ⟨"string", some "string"⟩,
    use := .optional, docs := [] }

/-- Optional attribute `priority` of int type. -/
def priorityAttr : Attr :=
  { name := "priority", atype := some ⟨"int", some "int"⟩,
    use := .optional, docs := [] }

/-- A type whose conversion succeeds in the `convStub` pipeline. -/
def goodTypeEx : XSDType := .complexType "GoodType" [] none [] none none

/-- A type whose conversion raises in the `convStub` pipeline. -/
def badTypeEx : XSDType := .complexType "BadType" [] none [] none none

/-- A per-type conversion step that raises exactly on `BadType`. -/
def convStub : XSDType → Except String Fragment := fun t =>
  if t.tName = "BadType" then .error "boom"
  else .ok (createJsonSchemaForType .atSign t "http://example.com/test")

/-- Fragment produced for a complex type `Type1`. -/
def frag1Ex : Fragment :=
  createJsonSchemaForType .atSign (.complexType "Type1" [] none [] none none)
    "http://example.com/test"

/-- Fragment produced for a complex type `Type2`. -/
def frag2Ex : Fragment :=
  createJsonSchemaForType .atSign (.complexType "Type2" [] none [] none none)
    "http://example.com/test"

end Xsd2Json

namespace Xsd2Json

/-! ## Dictionary lemmas -/

theorem dictGet_dictInsert_self {α : Type} (m : List (String × α)) (k : String)
    (v : α) : dictGet (dictInsert m k v) k = some v := by
  induction m with
  | nil => simp [dictInsert, dictGet]
  | cons p rest ih =>
    obtain ⟨k', w⟩ := p
    by_cases h : k' = k <;> simp [dictInsert, dictGet, h, ih]

theorem dictGet_dictInsert_ne {α : Type} (m : List (String × α))
    (k k' : String) (v : α) (h : k' ≠ k) :
    dictGet (dictInsert m k v) k' = dictGet m k' := by
  induction m with
  | nil => simp [dictInsert, dictGet, Ne.symm h]
  | cons p rest ih =>
    obtain ⟨k'', w⟩ := p
    by_cases h2 : k'' = k
    · subst h2
      simp [dictInsert, dictGet, Ne.symm h]
    · simp [dictInsert, dictGet, h2, ih]

/-! ## String lemmas -/

theorem leadsWith_append (p m : List Char) : leadsWith p (p ++ m) = true := by
  induction p with
  | nil => rfl
  | cons a as ih => simp [leadsWith, ih]

theorem containsSeq_of_leadsWith (pat l : List Char) (hne : pat ≠ [])
    (h : leadsWith pat l = true) : containsSeq pat l = true := by
  cases l with
  | nil =>
    cases pat with
    | nil => exact absurd rfl hne
    | cons a as => simp [leadsWith] at h
  | cons c rest => simp [containsSeq, h]

theorem strContains_append_self (p s : String) (tail : List Char)
    (hd : p.data = s.data ++ tail) (hne : s.data ≠ []) :
    strContains p s = true := by
  unfold strContains
  rw [hd]
  exact containsSeq_of_leadsWith _ _ hne (leadsWith_append _ _)

theorem styleKey_inj (style : AttrStyle) {x y : String}
    (h : styleKey style x = styleKey style y) : x = y := by
  cases style with
  | atSign =>
    have h2 := congrArg String.data h
    simp only [styleKey, String.data_append] at h2
    exact String.ext (List.append_cancel_left h2)
  | grouped => exact h

/-! ## Attribute-loop lemmas -/

theorem processAttrs_lookup_absent (hb : Bool) (bns : List String)
    (style : AttrStyle) (attrs : List Attr) (props : PropMap)
    (req : Option (List String)) (key : String)
    (h : ∀ b ∈ attrs, styleKey style b.name ≠ key) :
    dictGet (processAttrs hb bns style attrs props req).1 key =
      dictGet props key := by
  induction attrs generalizing props req with
  | nil => rfl
  | cons a rest ih =>
    have ha := h a (by simp)
    have hrest : ∀ b ∈ rest, styleKey style b.name ≠ key :=
      fun b hb' => h b (by simp [hb'])
    by_cases hskip : hb = true ∧ a.name ∈ bns
    · simp only [processAttrs]
      rw [if_pos hskip]
      exact ih _ _ hrest
    · simp only [processAttrs]
      rw [if_neg hskip]
      rw [ih _ _ hrest]
      exact dictGet_dictInsert_ne _ _ _ _ (Ne.symm ha)

theorem processAttrs_lookup (hb : Bool) (bns : List String) (style : AttrStyle)
    (attrs : List Attr) (props : PropMap) (req : Option (List String))
    (a : Attr) (ha : a ∈ attrs) (hnodup : (attrs.map Attr.name).Nodup) :
    dictGet (processAttrs hb bns style attrs props req).1
        (styleKey style a.name) =
      if hb = true ∧ a.name ∈ bns then dictGet props (styleKey style a.name)
      else some (attrSchema a) := by
  induction attrs generalizing props req with
  | nil => cases ha
  | cons b rest ih =>
    simp only [List.map_cons, List.nodup_cons] at hnodup
    rcases List.mem_cons.mp ha with hab | ha'
    · subst hab
      have habsent : ∀ c ∈ rest, styleKey style c.name ≠ styleKey style a.name :=
        fun c hc he =>
          hnodup.1 (by
            have : c.name = a.name := styleKey_inj style he
            exact this ▸ List.mem_map_of_mem Attr.name hc)
      by_cases hskip : hb = true ∧ a.name ∈ bns
      · simp only [processAttrs]
        rw [if_pos hskip, if_pos hskip]
        exact processAttrs_lookup_absent _ _ _ _ _ _ _ habsent
      · simp only [processAttrs]
        rw [if_neg hskip, if_neg hskip]
        rw [processAttrs_lookup_absent _ _ _ _ _ _ _ habsent]
        exact dictGet_dictInsert_self _ _ _
    · have hba : b.name ≠ a.name := by
        intro he
        exact hnodup.1 (he ▸ List.mem_map_of_mem Attr.name ha')
      have hkey : styleKey style a.name ≠ styleKey style b.name :=
        fun he => hba (styleKey_inj style he).symm
      by_cases hskip : hb = true ∧ b.name ∈ bns
      · simp only [processAttrs]
        rw [if_pos hskip]
        exact ih _ _ ha' hnodup.2
      · simp only [processAttrs]
        rw [if_neg hskip]
        rw [ih _ _ ha' hnodup.2]
        by_cases hcase : hb = true ∧ a.name ∈ bns
        · rw [if_pos hcase, if_pos hcase]
          exact dictGet_dictInsert_ne _ _ _ _ hkey
        · rw [if_neg hcase, if_neg hcase]

/-! ## Assembler lemmas -/

theorem consolidateLoop_absent (schemas : List Fragment)
    (defs : List (String × Fragment)) (props : List (String × String))
    (nm : String) (h : ∀ s ∈ schemas, schemaName s ≠ nm) :
    dictGet (consolidateLoop schemas defs props).1 nm = dictGet defs nm ∧
    dictGet (consolidateLoop schemas defs props).2 nm = dictGet props nm := by
  induction schemas generalizing defs props with
  | nil => exact ⟨rfl, rfl⟩
  | cons s rest ih =>
    have hs := h s (by simp)
    have hrest : ∀ u ∈ rest, schemaName u ≠ nm := fun u hu => h u (by simp [hu])
    simp only [consolidateLoop]
    refine ⟨?_, ?_⟩
    · rw [(ih _ _ hrest).1]
      exact dictGet_dictInsert_ne _ _ _ _ (Ne.symm hs)
    · rw [(ih _ _ hrest).2]
      exact dictGet_dictInsert_ne _ _ _ _ (Ne.symm hs)

theorem consolidateLoop_mem (schemas : List Fragment)
    (defs : List (String × Fragment)) (props : List (String × String))
    (f : Fragment) (hf : f ∈ schemas)
    (hnodup : (schemas.map schemaName).Nodup) :
    dictGet (consolidateLoop schemas defs props).1 (schemaName f) =
      some (fragmentMinusId f) ∧
    dictGet (consolidateLoop schemas defs props).2 (schemaName f) =
      some ("#/definitions/" ++ schemaName f) := by
  induction schemas generalizing defs props with
  | nil => cases hf
  | cons s rest ih =>
    simp only [List.map_cons, List.nodup_cons] at hnodup
    rcases List.mem_cons.mp hf with hfs | hf'
    · subst hfs
      have habsent : ∀ u ∈ rest, schemaName u ≠ schemaName f :=
        fun u hu he => hnodup.1 (he ▸ List.mem_map_of_mem schemaName hu)
      simp only [consolidateLoop]
      refine ⟨?_, ?_⟩
      · rw [(consolidateLoop_absent _ _ _ _ habsent).1]
        exact dictGet_dictInsert_self _ _ _
      · rw [(consolidateLoop_absent _ _ _ _ habsent).2]
        exact dictGet_dictInsert_self _ _ _
    · simp only [consolidateLoop]
      exact ih _ _ hf' hnodup.2

/-! ## Type-mapper structural lemmas -/

theorem createJsonSchemaForType_title (style : AttrStyle) (t : XSDType)
    (ns : String) :
    (createJsonSchemaForType style t ns).title =
      "Generated JSON Schema for " ++ t.tName := by
  simp only [createJsonSchemaForType]
  cases h : (chooseBranch t).target <;> simp [h]

theorem extractTypeName_create (style : AttrStyle) (t : XSDType) (ns : String) :
    extractTypeName (createJsonSchemaForType style t ns) =
      strReplace ("Generated JSON Schema for " ++ t.tName)
        "Generated JSON Schema for " "" := by
  have ht := createJsonSchemaForType_title style t ns
  have hdata : ("Generated JSON Schema for " : String).data =
      ("Generated JSON Schema for" : String).data ++ [' '] := by decide
  have hc : strContains ("Generated JSON Schema for " ++ t.tName)
      "Generated JSON Schema for" = true := by
    refine strContains_append_self _ _ (' ' :: t.tName.data) ?_ (by decide)
    rw [String.data_append, hdata, List.append_assoc]
    rfl
  unfold extractTypeName
  rw [ht, if_pos hc]

/-! ## Claim theorems: occurrence model -/

/-- C8: for every constructed `ElementOccurrence(min, max)`, `is_required`
holds iff `min ≥ 1`, `is_array` holds iff `max` is `"unbounded"` or an
integer `> 1`, `is_optional` holds iff `min = 0`; and the predicates are
independent: the occurrence `(0, unbounded)` is both optional and an array. -/
theorem claim_C8_occurrence_predicates :
    (∀ (mo : Int) (xo : MaxOccurs),
      ((mkElementOccurrence mo xo).isRequired = true ↔
        1 ≤ (mkElementOccurrence mo xo).min) ∧
      ((mkElementOccurrence mo xo).isArray = true ↔
        ((mkElementOccurrence mo xo).max = .unbounded ∨
          ∃ n : Int, (mkElementOccurrence mo xo).max = .num n ∧ 1 < n)) ∧
      ((mkElementOccurrence mo xo).isOptional = true ↔
        (mkElementOccurrence mo xo).min = 0)) ∧
    (mkElementOccurrence 0 .unbounded).isOptional = true ∧
    (mkElementOccurrence 0 .unbounded).isArray = true := by
  refine ⟨fun mo xo => ⟨?_, ?_, ?_⟩, by decide, by decide⟩
  · simp [ElementOccurrence.isRequired, ge_iff_le]
  · cases xo with
    | unbounded => simp [ElementOccurrence.isArray, mkElementOccurrence]
    | num n =>
      simp only [ElementOccurrence.isArray, mkElementOccurrence]
      constructor
      · intro h
        rcases Bool.or_eq_true _ _ |>.mp h with h' | h'
        · exact absurd (of_decide_eq_true h') (by simp)
        · exact Or.inr ⟨Max.max 1 n, rfl, by simpa using of_decide_eq_true h'⟩
      · rintro (h | ⟨n', hn', h1⟩)
        · exact absurd h (by simp)
        · simp only [MaxOccurs.num.injEq] at hn'
          subst hn'
          simp [h1]
  · simp [ElementOccurrence.isOptional]

/-- C10: the `ElementOccurrence` constructor clamps instead of rejecting:
for every integer `min_occurs` (negative included) and every `max_occurs`
that is an integer or `"unbounded"`, the result satisfies `min ≥ 0` and
(`max = "unbounded"` or `max ≥ 1`); in particular `min_occurs = -5` yields
`min = 0` and `max_occurs = 0` yields `max = 1`. -/
theorem claim_C10_occurrence_clamping :
    (∀ (mo : Int) (xo : MaxOccurs),
      0 ≤ (mkElementOccurrence mo xo).min ∧
      ((mkElementOccurrence mo xo).max = .unbounded ∨
        ∃ n : Int, (mkElementOccurrence mo xo).max = .num n ∧ 1 ≤ n)) ∧
    (mkElementOccurrence (-5) (.num 1)).min = 0 ∧
    (mkElementOccurrence 1 (.num 0)).max = .num 1 := by
  refine ⟨fun mo xo => ⟨?_, ?_⟩, by decide, by decide⟩
  · simp [mkElementOccurrence]
  · cases xo with
    | unbounded => exact Or.inl rfl
    | num n => exact Or.inr ⟨Max.max 1 n, rfl, le_max_left 1 n⟩

/-! ## Claim theorems: type mapper -/

/-- C1 counterexample: the claim also asserts that no `properties` key is
present, but the enum fragment for the `Color` simple type keeps the
initial `"properties": {}` entry (it is never deleted), alongside the
expected `type`/`enum` body. -/
theorem claim_C1_counterexample :
    (createJsonSchemaForType .atSign colorEnumType "http://example.com/test").jtype
        = some "string" ∧
    (createJsonSchemaForType .atSign colorEnumType "http://example.com/test").enum
        = some ["red", "green", "blue"] ∧
    (createJsonSchemaForType .atSign colorEnumType "http://example.com/test").properties
        = some [] ∧
    (createJsonSchemaForType .atSign colorEnumType "http://example.com/test").properties
        ≠ none := by
  decide

/-- C1 (amended): mapping a `SimpleType` with at least one `enumeration`
facet value (whatever its `baseType`/derivation) yields
`type: "string"` and `enum` holding the facet values in insertion order,
skips the `allOf`/`x-inheritance` derivation handling and attribute/particle
merging, and leaves the `properties` key present but empty (rather than
absent, as the claim stated). -/
theorem claim_C1_amended (style : AttrStyle) (name : String)
    (docs : List String) (prim : Option String) (facets : List Facet)
    (base : Option XSDType) (deriv : Option DerivationMethod) (ns : String)
    (h : collectEnumValues facets ≠ []) :
    (createJsonSchemaForType style
        (.simpleType name docs prim facets base deriv) ns).jtype = some "string" ∧
    (createJsonSchemaForType style
        (.simpleType name docs prim facets base deriv) ns).enum =
      some (collectEnumValues facets) ∧
    (createJsonSchemaForType style
        (.simpleType name docs prim facets base deriv) ns).properties = some [] ∧
    (createJsonSchemaForType style
        (.simpleType name docs prim facets base deriv) ns).allOf = none ∧
    (createJsonSchemaForType style
        (.simpleType name docs prim facets base deriv) ns).xInh = none ∧
    (createJsonSchemaForType style
        (.simpleType name docs prim facets base deriv) ns).required = none := by
  have hf : facets ≠ [] := by
    rintro rfl
    exact h rfl
  have key : createJsonSchemaForType style
      (.simpleType name docs prim facets base deriv) ns =
      { schemaUri := "https://json-schema.org/draft/2020-12/schema"
        id := some (ns ++ "/" ++ name)
        title := "Generated JSON Schema for " ++ name
        properties := some []
        description := if docs ≠ [] then some (joinSpace docs) else none
        jtype := some "string"
        enum := some (collectEnumValues facets)
        allOf := none
        xInh := none
        required := none } := by
    simp [createJsonSchemaForType, chooseBranch, hf, h, XSDType.hasFacetsAttr,
      XSDType.facetsOf, XSDType.particleOf, XSDType.attrsOf, XSDType.tBase,
      XSDType.tName, XSDType.tDocs, processAttrs, dictMerge]
  exact ⟨by rw [key], by rw [key], by rw [key], by rw [key], by rw [key],
    by rw [key]⟩

/-- C1 witness: the amended theorem applied to the concrete
red/green/blue enumeration type. -/
theorem claim_C1_witness :
    collectEnumValues
        [⟨"enumeration", FacetValue.multi ["red", "green", "blue"]⟩] ≠ [] ∧
    ((createJsonSchemaForType .atSign
        (.simpleType "Color" [] none
          [⟨"enumeration", FacetValue.multi ["red", "green", "blue"]⟩]
          none none) "http://example.com/test").jtype = some "string" ∧
      (createJsonSchemaForType .atSign
        (.simpleType "Color" [] none
          [⟨"enumeration", FacetValue.multi ["red", "green", "blue"]⟩]
          none none) "http://example.com/test").enum =
        some (collectEnumValues
          [⟨"enumeration", FacetValue.multi ["red", "green", "blue"]⟩]) ∧
      (createJsonSchemaForType .atSign
        (.simpleType "Color" [] none
          [⟨"enumeration", FacetValue.multi ["red", "green", "blue"]⟩]
          none none) "http://example.com/test").properties = some [] ∧
      (createJsonSchemaForType .atSign
        (.simpleType "Color" [] none
          [⟨"enumeration", FacetValue.multi ["red", "green", "blue"]⟩]
          none none) "http://example.com/test").allOf = none ∧
      (createJsonSchemaForType .atSign
        (.simpleType "Color" [] none
          [⟨"enumeration", FacetValue.multi ["red", "green", "blue"]⟩]
          none none) "http://example.com/test").xInh = none ∧
      (createJsonSchemaForType .atSign
        (.simpleType "Color" [] none
          [⟨"enumeration", FacetValue.multi ["red", "green", "blue"]⟩]
          none none) "http://example.com/test").required = none) :=
  ⟨by decide,
    claim_C1_amended .atSign "Color" [] none
      [⟨"enumeration", FacetValue.multi ["red", "green", "blue"]⟩]
      none none "http://example.com/test" (by decide)⟩

/-- C2 counterexample: the empty complex type (no particle, no attributes,
no enumeration, no base) maps to `type: "object"`, not to the claimed
`"string"` fallback. -/
theorem claim_C2_counterexample :
    (createJsonSchemaForType .atSign emptyComplexType
        "http://example.com/test").jtype = some "object" ∧
    (createJsonSchemaForType .atSign emptyComplexType
        "http://example.com/test").jtype ≠ some "string" := by
  decide

/-- C2 (amended): the no-derivation no-enum branch tests
`hasattr(xsd_type, 'particle') or hasattr(xsd_type, 'attributes')`, which
every `ComplexType` satisfies regardless of content, so every complex type
without base or enum maps to `type: "object"` (even with no particle and no
attributes); the `"string"` fallback is reachable only for a `SimpleType`
with no facets and no base. -/
theorem claim_C2_amended (style : AttrStyle) (ns n n' : String)
    (docs docs' : List String) (particle : Option Particle)
    (attrs : List Attr) (prim : Option String) :
    (createJsonSchemaForType style
        (.complexType n docs particle attrs none none) ns).jtype =
      some "object" ∧
    (createJsonSchemaForType style
        (.simpleType n' docs' prim [] none none) ns).jtype = some "string" := by
  constructor
  · simp [createJsonSchemaForType, chooseBranch, XSDType.hasFacetsAttr,
      XSDType.facetsOf, XSDType.tBase, XSDType.hasParticleAttr,
      XSDType.hasAttributesAttr]
  · simp [createJsonSchemaForType, chooseBranch, XSDType.hasFacetsAttr,
      XSDType.facetsOf, XSDType.tBase, XSDType.hasParticleAttr,
      XSDType.hasAttributesAttr, XSDType.particleOf, XSDType.attrsOf,
      processAttrs, dictMerge]

/-! ## Claim theorems: particle resolver -/

/-- C3 counterexample: the `Any` wildcard has the truthy name `"any"`, so
particle resolution treats it as an element: both as the root particle and
as a model-group child it contributes the property `"any"` (with the
`{"type": "string"}` fallback schema) and, with the default occurrence
`(1, 1)`, the required entry `"any"` — not nothing, as claimed. -/
theorem claim_C3_counterexample :
    extractFromParticle (.anyWildcard defaultOccurrence) =
      ([("any", .leaf none (some "string") none)], ["any"]) ∧
    extractFromParticle
        (.modelGroup .seq defaultOccurrence [.anyWildcard defaultOccurrence]) =
      ([("any", .leaf none (some "string") none)], ["any"]) ∧
    extractFromParticle (.anyWildcard defaultOccurrence) ≠
      (([], []) : PropMap × List String) := by
  decide

/-- C3 (amended): a wildcard particle is handled through the element path
(its `name` attribute is `"any"`): both as the root particle and as the
only child of a model group it contributes exactly the property `"any"`
with its synthesized element schema, plus the required entry `"any"` iff
its occurrence has `min ≥ 1`. -/
theorem claim_C3_amended (o o' : ElementOccurrence) (k : GroupKind) :
    extractFromParticle (.anyWildcard o) =
      ([("any", createElementSchema (.anyWildcard o))],
        if 1 ≤ o.min then ["any"] else []) ∧
    extractFromParticle (.modelGroup k o' [.anyWildcard o]) =
      ([("any", createElementSchema (.anyWildcard o))],
        if 1 ≤ o.min then ["any"] else []) := by
  constructor
  · simp [extractFromParticle, Particle.pname, Particle.occursOf]
  · simp [extractFromParticle, extractLoop, Particle.pname, Particle.occursOf,
      Particle.hasParticlesAttr, dictInsert]

/-! ## Claim theorems: conversion pipeline error handling -/

/-- Helper: with no try/except inside the per-type loop, the first failing
type makes the whole transform step fail. -/
theorem transformToJson_error (conv : XSDType → Except String Fragment)
    (pre post : List XSDType) (t : XSDType) (e : String)
    (hok : ∀ u ∈ pre, ∃ f, conv u = .ok f) (herr : conv t = .error e) :
    transformToJson conv (pre ++ t :: post) = .error e := by
  induction pre with
  | nil => simp [transformToJson, herr]
  | cons u pre' ih =>
    obtain ⟨f, hf⟩ := hok u (by simp)
    have hok' : ∀ v ∈ pre', ∃ f, conv v = .ok f :=
      fun v hv => hok v (by simp [hv])
    simp [transformToJson, hf, ih hok']

/-- C4 counterexample: when the first type's conversion raises, the result
is a global failure with an empty output set, even though the remaining
type converts fine — there is no per-type skip producing a partial set. -/
theorem claim_C4_counterexample :
    convertModel convStub [badTypeEx, goodTypeEx] =
      { success := false, outputs := [],
        errors := ["Conversion failed: boom"] } ∧
    convStub goodTypeEx =
      .ok (createJsonSchemaForType .atSign goodTypeEx
        "http://example.com/test") := by
  constructor
  · rfl
  · rfl

/-- C4 (amended): an error raised while transforming one type propagates
out of the per-type loop (which has no handler) to the top-level
`except`, so the whole conversion fails: the result records the single
error string and produces no output files at all, regardless of how many
other types would have converted. -/
theorem claim_C4_amended (conv : XSDType → Except String Fragment)
    (pre post : List XSDType) (t : XSDType) (e : String)
    (hok : ∀ u ∈ pre, ∃ f, conv u = .ok f) (herr : conv t = .error e) :
    convertModel conv (pre ++ t :: post) =
      { success := false, outputs := [],
        errors := ["Conversion failed: " ++ e] } := by
  unfold convertModel
  rw [transformToJson_error conv pre post t e hok herr]

/-- C4 witness: the amended theorem applied to a good type followed by the
failing `BadType`. -/
theorem claim_C4_witness :
    (∀ u ∈ [goodTypeEx], ∃ f, convStub u = .ok f) ∧
    convStub badTypeEx = .error "boom" ∧
    convertModel convStub ([goodTypeEx] ++ badTypeEx :: []) =
      { success := false, outputs := [],
        errors := ["Conversion failed: boom"] } := by
  refine ⟨?_, rfl, ?_⟩
  · intro u hu
    rcases List.mem_singleton.mp hu with rfl
    exact ⟨createJsonSchemaForType .atSign goodTypeEx "http://example.com/test",
      rfl⟩
  · refine claim_C4_amended convStub [goodTypeEx] [] badTypeEx "boom" ?_ rfl
    intro u hu
    rcases List.mem_singleton.mp hu with rfl
    exact ⟨createJsonSchemaForType .atSign goodTypeEx "http://example.com/test",
      rfl⟩

/-! ## Claim theorems: document assembler -/

/-- C5 counterexample: with a schema whose target namespace is
`http://myns.example.org`, the per-type multi-file document still gets
`$id = http://example.com/types/PersonType`, not the claimed
namespace-based `http://myns.example.org/types/PersonType`. -/
theorem claim_C5_counterexample :
    (multiFileIndividualSchema (createJsonSchemaForType .atSign
        (.complexType "PersonType" [] none [] none none)
        "http://myns.example.org")).id =
      some "http://example.com/types/PersonType" ∧
    (multiFileIndividualSchema (createJsonSchemaForType .atSign
        (.complexType "PersonType" [] none [] none none)
        "http://myns.example.org")).id ≠
      some "http://myns.example.org/types/PersonType" := by
  decide

/-- C5 (amended): the `$id` of every per-type document in multi-file mode
is the literal `http://example.com/types/<TypeName>`: the hard-coded
default host is used always, and the value is independent of the schema's
target namespace. -/
theorem claim_C5_amended (style : AttrStyle) (t : XSDType) (ns ns' : String) :
    (multiFileIndividualSchema (createJsonSchemaForType style t ns)).id =
      some ("http://example.com/types/" ++
        extractTypeName (createJsonSchemaForType style t ns)) ∧
    (multiFileIndividualSchema (createJsonSchemaForType style t ns)).id =
      (multiFileIndividualSchema (createJsonSchemaForType style t ns')).id := by
  constructor
  · rfl
  · show some ("http://example.com/types/" ++
        extractTypeName (createJsonSchemaForType style t ns)) =
      some ("http://example.com/types/" ++
        extractTypeName (createJsonSchemaForType style t ns'))
    rw [extractTypeName_create, extractTypeName_create]

/-- C6: for an extension-derived complex type whose declared attribute
names are distinct, the fragment carries
`allOf[0].$ref = "#/definitions/<baseName>"`, and `allOf[1].properties`
contains the `@`-prefixed key of each declared attribute exactly when its
name is NOT in the base type's attribute list (attributes repeated from
the base are skipped). -/
theorem claim_C6_extension_attribute_merge (ns n bn : String)
    (d bd : List String) (bp : Option Particle) (battrs : List Attr)
    (bb : Option XSDType) (bdm : Option DerivationMethod) (attrs : List Attr)
    (hnodup : (attrs.map Attr.name).Nodup) :
    ∃ ap : AllOfPart,
      (createJsonSchemaForType .atSign
          (.complexType n d none attrs
            (some (.complexType bn bd bp battrs bb bdm)) (some .extension))
          ns).allOf = some ap ∧
      ap.baseRef = "#/definitions/" ++ bn ∧
      ∀ a ∈ attrs,
        dictGet ap.props ("@" ++ a.name) =
          if a.name ∈ battrs.map Attr.name then none
          else some (attrSchema a) := by
  refine ⟨⟨"#/definitions/" ++ bn,
    (processAttrs true (battrs.map Attr.name) .atSign attrs [] none).1⟩,
    rfl, rfl, ?_⟩
  intro a ha
  show dictGet (processAttrs true (battrs.map Attr.name) .atSign attrs
      [] none).1 (styleKey .atSign a.name) = _
  rw [processAttrs_lookup true (battrs.map Attr.name) .atSign attrs [] none
    a ha hnodup]
  by_cases hm : a.name ∈ battrs.map Attr.name
  · rw [if_pos ⟨rfl, hm⟩, if_pos hm]
    rfl
  · rw [if_neg (fun hc => hm hc.2), if_neg hm]

/-- C6 witness: `ExtendedType` declaring `version` (inherited from
`BaseType`) and its own `priority`: `@priority` is emitted, `@version` is
skipped. -/
theorem claim_C6_witness :
    (([versionAttr, priorityAttr].map Attr.name).Nodup) ∧
    (∃ ap : AllOfPart,
      (createJsonSchemaForType .atSign
          (.complexType "ExtendedType" [] none [versionAttr, priorityAttr]
            (some (.complexType "BaseType" [] none [versionAttr] none none))
            (some .extension))
          "http://example.com/inheritance").allOf = some ap ∧
      ap.baseRef = "#/definitions/BaseType" ∧
      ∀ a ∈ [versionAttr, priorityAttr],
        dictGet ap.props ("@" ++ a.name) =
          if a.name ∈ [versionAttr].map Attr.name then none
          else some (attrSchema a)) :=
  ⟨by decide,
    claim_C6_extension_attribute_merge "http://example.com/inheritance"
      "ExtendedType" "BaseType" [] [] none [versionAttr] none none
      [versionAttr, priorityAttr] (by decide)⟩

/-- C7: in single-document mode a lone fragment is emitted verbatim, and
with any other number of fragments (distinctly named) the output is the
document titled `"Consolidated JSON Schema"` whose `definitions` holds
each fragment minus its `$id` under the fragment's extracted name and
whose `properties` holds the matching `#/definitions/<name>` reference. -/
theorem claim_C7_single_file_assembly :
    (∀ f : Fragment, generateSingleFileOutput [f] = .single f) ∧
    (∀ (schemas : List Fragment) (f : Fragment),
      schemas.length ≠ 1 → (schemas.map schemaName).Nodup → f ∈ schemas →
      ∃ props defs,
        generateSingleFileOutput schemas =
          .consolidated "Consolidated JSON Schema" props defs ∧
        dictGet defs (schemaName f) = some (fragmentMinusId f) ∧
        dictGet props (schemaName f) =
          some ("#/definitions/" ++ schemaName f)) := by
  constructor
  · intro f
    rfl
  · intro schemas f hlen hnodup hf
    cases schemas with
    | nil => cases hf
    | cons a tail =>
      cases tail with
      | nil => exact absurd rfl hlen
      | cons b rest =>
        refine ⟨(consolidateLoop (a :: b :: rest) [] []).2,
          (consolidateLoop (a :: b :: rest) [] []).1, rfl, ?_, ?_⟩
        · exact (consolidateLoop_mem (a :: b :: rest) [] [] f hf hnodup).1
        · exact (consolidateLoop_mem (a :: b :: rest) [] [] f hf hnodup).2

/-! ## Claim C9: sanitisation is idempotent

The invariant satisfied by every `_sanitize_filename` output: only
`[a-z0-9-]` characters, no two adjacent hyphens, no hyphen at either end.
Each pipeline stage is the identity on strings satisfying it. -/

/-- No two adjacent hyphens. -/
def noDH : List Char → Prop
  | a :: b :: rest => ¬(a = '-' ∧ b = '-') ∧ noDH (b :: rest)
  | _ => True

theorem noDH_tail {c : Char} {l : List Char} (h : noDH (c :: l)) : noDH l := by
  cases l with
  | nil => trivial
  | cons x xs => exact h.2

theorem noDH_cons (c : Char) (l : List Char)
    (h1 : ∀ x, l.head? = some x → ¬(c = '-' ∧ x = '-')) (h2 : noDH l) :
    noDH (c :: l) := by
  cases l with
  | nil => trivial
  | cons x xs => exact ⟨h1 x rfl, h2⟩

theorem allowed_not_upper (c : Char) (h : isAllowed c = true) :
    isUpperAZ c = false := by
  have h' : (('a' ≤ c ∧ c ≤ 'z') ∨ ('0' ≤ c ∧ c ≤ '9')) ∨ c = '-' := by
    simpa [isAllowed] using h
  rw [Bool.eq_false_iff]
  intro hu
  have hu' : 'A' ≤ c ∧ c ≤ 'Z' := by simpa [isUpperAZ] using hu
  rcases h' with (⟨h1, _⟩ | ⟨_, h2⟩) | h3
  · exact absurd (le_trans h1 hu'.2) (by decide)
  · exact absurd (le_trans hu'.1 h2) (by decide)
  · subst h3
    exact absurd hu'.1 (by decide)

theorem toLower_fix (c : Char) (h : isAllowed c = true) :
    Char.toLower c = c := by
  have h' : (('a' ≤ c ∧ c ≤ 'z') ∨ ('0' ≤ c ∧ c ≤ '9')) ∨ c = '-' := by
    simpa [isAllowed] using h
  show (if c.toNat ≥ 65 ∧ c.toNat ≤ 90 then Char.ofNat (c.toNat + 32) else c)
      = c
  rw [if_neg]
  rintro ⟨h1, h2⟩
  rcases h' with (⟨ha, _⟩ | ⟨_, hb⟩) | hd
  · have ha' : (97 : Nat) ≤ c.toNat := ha
    omega
  · have hb' : c.toNat ≤ 57 := hb
    omega
  · subst hd
    exact absurd h1 (by decide)

theorem mapToLower_fix (l : List Char) (h : ∀ c ∈ l, isAllowed c = true) :
    l.map Char.toLower = l := by
  induction l with
  | nil => rfl
  | cons c rest ih =>
    rw [List.map_cons, toLower_fix c (h c (by simp)),
      ih (fun x hx => h x (by simp [hx]))]

theorem camelSplit_fix (l : List Char) (h : ∀ c ∈ l, isAllowed c = true) :
    camelSplit l = l := by
  induction l using camelSplit.induct with
  | case1 a b rest hcond ih =>
    have hb := allowed_not_upper b (h b (by simp))
    simp [hb] at hcond
  | case2 a b rest hcond ih =>
    have hrest : ∀ c ∈ b :: rest, isAllowed c = true :=
      fun c hc => h c (by simp at hc ⊢; tauto)
    simp only [camelSplit]
    rw [if_neg hcond, ih hrest]
  | case3 l hno =>
    cases l with
    | nil => rfl
    | cons c t =>
      cases t with
      | nil => rfl
      | cons d r => exact absurd rfl (hno c d r)

theorem replaceDisallowed_allowed (l : List Char) :
    ∀ c ∈ replaceDisallowed l, isAllowed c = true := by
  intro c hc
  simp only [replaceDisallowed, List.mem_map] at hc
  obtain ⟨x, _, he⟩ := hc
  by_cases hax : isAllowed x = true
  · rw [if_pos hax] at he
    exact he ▸ hax
  · rw [if_neg hax] at he
    exact he ▸ (by decide)

theorem replaceDisallowed_fix (l : List Char)
    (h : ∀ c ∈ l, isAllowed c = true) : replaceDisallowed l = l := by
  simp only [replaceDisallowed]
  induction l with
  | nil => rfl
  | cons c rest ih =>
    rw [List.map_cons, if_pos (h c (by simp)),
      ih (fun x hx => h x (by simp [hx]))]

theorem collapse_subset (b : Bool) (l : List Char) :
    ∀ x ∈ collapseHyphens b l, x ∈ l := by
  induction l generalizing b with
  | nil => intro x hx; cases hx
  | cons c rest ih =>
    intro x hx
    by_cases hc : c = '-'
    · subst hc
      simp only [collapseHyphens, if_pos rfl] at hx
      cases b with
      | true => exact List.mem_cons_of_mem _ (ih true x hx)
      | false =>
        rcases List.mem_cons.mp hx with h1 | h1
        · exact h1 ▸ List.mem_cons_self _ _
        · exact List.mem_cons_of_mem _ (ih true x h1)
    · simp only [collapseHyphens, if_neg hc] at hx
      rcases List.mem_cons.mp hx with h1 | h1
      · exact h1 ▸ List.mem_cons_self _ _
      · exact List.mem_cons_of_mem _ (ih false x h1)

theorem collapse_head (l : List Char) :
    ∀ x, (collapseHyphens true l).head? = some x → x ≠ '-' := by
  induction l with
  | nil => intro x hx; cases hx
  | cons c rest ih =>
    intro x hx
    by_cases hc : c = '-'
    · subst hc
      simp only [collapseHyphens, if_pos rfl] at hx
      exact ih x hx
    · simp only [collapseHyphens, if_neg hc, List.head?_cons,
        Option.some.injEq] at hx
      exact hx ▸ hc

theorem collapse_noDH (b : Bool) (l : List Char) :
    noDH (collapseHyphens b l) := by
  induction l generalizing b with
  | nil => trivial
  | cons c rest ih =>
    by_cases hc : c = '-'
    · subst hc
      cases b with
      | true =>
        simp only [collapseHyphens, if_pos rfl]
        exact ih true
      | false =>
        simp only [collapseHyphens, if_pos rfl]
        refine noDH_cons _ _ ?_ (ih true)
        intro x hx ⟨_, hx2⟩
        exact collapse_head rest x hx hx2
    · simp only [collapseHyphens, if_neg hc]
      refine noDH_cons _ _ ?_ (ih false)
      intro x _ ⟨hc2, _⟩
      exact hc hc2

theorem collapse_fix (b : Bool) (l : List Char) (hnd : noDH l)
    (hhd : b = true → ∀ x, l.head? = some x → x ≠ '-') :
    collapseHyphens b l = l := by
  induction l generalizing b with
  | nil => rfl
  | cons c rest ih =>
    by_cases hc : c = '-'
    · subst hc
      cases b with
      | true => exact absurd rfl (hhd rfl '-' rfl)
      | false =>
        simp only [collapseHyphens, if_pos rfl]
        refine congrArg _ (ih true (noDH_tail hnd) ?_)
        intro _ x hx
        cases rest with
        | nil => cases hx
        | cons y ys =>
          rw [List.head?_cons, Option.some.injEq] at hx
          subst hx
          intro he
          exact hnd.1 ⟨rfl, he⟩
    · simp only [collapseHyphens, if_neg hc]
      exact congrArg _ (ih false (noDH_tail hnd) (fun h => by cases h))

theorem dropWhile_dash_subset (l : List Char) :
    ∀ x ∈ l.dropWhile (fun c => c = '-'), x ∈ l := by
  induction l with
  | nil => intro x hx; cases hx
  | cons c rest ih =>
    intro x hx
    rw [List.dropWhile_cons] at hx
    by_cases hc : c = '-'
    · rw [if_pos (by simp [hc])] at hx
      exact List.mem_cons_of_mem _ (ih x hx)
    · rw [if_neg (by simp [hc])] at hx
      exact hx

theorem noDH_dropWhile (l : List Char) (h : noDH l) :
    noDH (l.dropWhile (fun c => c = '-')) := by
  induction l with
  | nil => trivial
  | cons c rest ih =>
    rw [List.dropWhile_cons]
    by_cases hc : c = '-'
    · rw [if_pos (by simp [hc])]
      exact ih (noDH_tail h)
    · rw [if_neg (by simp [hc])]
      exact h

theorem head_dropWhile_dash (l : List Char) :
    ∀ x, (l.dropWhile (fun c => c = '-')).head? = some x → x ≠ '-' := by
  induction l with
  | nil => intro x hx; cases hx
  | cons c rest ih =>
    intro x hx
    rw [List.dropWhile_cons] at hx
    by_cases hc : c = '-'
    · rw [if_pos (by simp [hc])] at hx
      exact ih x hx
    · rw [if_neg (by simp [hc]), List.head?_cons, Option.some.injEq] at hx
      exact hx ▸ hc

theorem dropWhile_dash_fix (l : List Char)
    (h : ∀ x, l.head? = some x → x ≠ '-') :
    l.dropWhile (fun c => c = '-') = l := by
  cases l with
  | nil => rfl
  | cons c rest =>
    rw [List.dropWhile_cons, if_neg (by simp [h c rfl])]

theorem dropTrailing_subset (l : List Char) :
    ∀ x ∈ dropTrailingHyphens l, x ∈ l := by
  induction l with
  | nil => intro x hx; cases hx
  | cons c rest ih =>
    intro x hx
    simp only [dropTrailingHyphens] at hx
    cases hdt : dropTrailingHyphens rest with
    | nil =>
      rw [hdt] at hx
      by_cases hc : c = '-'
      · rw [if_pos hc] at hx
        cases hx
      · rw [if_neg hc] at hx
        rcases List.mem_singleton.mp hx with rfl
        exact List.mem_cons_self _ _
    | cons d t =>
      rw [hdt] at hx
      rcases List.mem_cons.mp hx with h1 | h1
      · exact h1 ▸ List.mem_cons_self _ _
      · exact List.mem_cons_of_mem _ (ih x (by rw [hdt]; exact h1))

theorem dropTrailing_head (l : List Char) :
    dropTrailingHyphens l = [] ∨ (dropTrailingHyphens l).head? = l.head? := by
  cases l with
  | nil => exact Or.inl rfl
  | cons c rest =>
    simp only [dropTrailingHyphens]
    cases hdt : dropTrailingHyphens rest with
    | nil =>
      by_cases hc : c = '-'
      · rw [if_pos hc]
        exact Or.inl rfl
      · rw [if_neg hc]
        exact Or.inr rfl
    | cons d t => exact Or.inr rfl

theorem dropTrailing_noDH (l : List Char) (h : noDH l) :
    noDH (dropTrailingHyphens l) := by
  induction l with
  | nil => trivial
  | cons c rest ih =>
    simp only [dropTrailingHyphens]
    cases hdt : dropTrailingHyphens rest with
    | nil =>
      by_cases hc : c = '-'
      · rw [if_pos hc]
        trivial
      · rw [if_neg hc]
        trivial
    | cons d t =>
      refine noDH_cons _ _ ?_ (hdt ▸ ih (noDH_tail h))
      intro x hx
      rw [List.head?_cons, Option.some.injEq] at hx
      subst hx
      cases rest with
      | nil => cases hdt
      | cons y ys =>
        rcases dropTrailing_head (y :: ys) with he | he
        · rw [he] at hdt
          cases hdt
        · rw [hdt] at he
          simp only [List.head?_cons, Option.some.injEq] at he
          subst he
          exact h.1

theorem dropTrailing_last (l : List Char) :
    ∀ x, (dropTrailingHyphens l).getLast? = some x → x ≠ '-' := by
  induction l with
  | nil => intro x hx; cases hx
  | cons c rest ih =>
    intro x hx
    simp only [dropTrailingHyphens] at hx
    cases hdt : dropTrailingHyphens rest with
    | nil =>
      rw [hdt] at hx
      by_cases hc : c = '-'
      · rw [if_pos hc] at hx
        cases hx
      · rw [if_neg hc] at hx
        simp only [List.getLast?_singleton, Option.some.injEq] at hx
        exact hx ▸ hc
    | cons d t =>
      rw [hdt, List.getLast?_cons_cons] at hx
      exact ih x (hdt ▸ hx)

theorem dropTrailing_fix (l : List Char)
    (h : ∀ x, l.getLast? = some x → x ≠ '-') :
    dropTrailingHyphens l = l := by
  induction l with
  | nil => rfl
  | cons c rest ih =>
    simp only [dropTrailingHyphens]
    cases rest with
    | nil =>
      simp only [dropTrailingHyphens]
      rw [if_neg (h c (by rfl))]
    | cons d t =>
      rw [ih (fun x hx => h x (by rw [List.getLast?_cons_cons]; exact hx))]

theorem sanitizeChars_allowed (l : List Char) :
    ∀ c ∈ sanitizeChars l, isAllowed c = true := by
  intro c hc
  unfold sanitizeChars stripHyphens at hc
  have h1 := dropTrailing_subset _ c hc
  have h2 := dropWhile_dash_subset _ c h1
  have h3 := collapse_subset _ _ c h2
  exact replaceDisallowed_allowed _ c h3

theorem sanitizeChars_noDH (l : List Char) : noDH (sanitizeChars l) := by
  unfold sanitizeChars stripHyphens
  exact dropTrailing_noDH _ (noDH_dropWhile _ (collapse_noDH _ _))

theorem sanitizeChars_head (l : List Char) :
    ∀ x, (sanitizeChars l).head? = some x → x ≠ '-' := by
  intro x hx
  unfold sanitizeChars stripHyphens at hx
  rcases dropTrailing_head ((collapseHyphens false
      (replaceDisallowed ((camelSplit l).map Char.toLower))).dropWhile
      (fun c => c = '-')) with he | he
  · rw [he] at hx
    cases hx
  · rw [he] at hx
    exact head_dropWhile_dash _ x hx

theorem sanitizeChars_last (l : List Char) :
    ∀ x, (sanitizeChars l).getLast? = some x → x ≠ '-' := by
  intro x hx
  unfold sanitizeChars stripHyphens at hx
  exact dropTrailing_last _ x hx

theorem sanitizeChars_fix (l : List Char)
    (h1 : ∀ c ∈ l, isAllowed c = true) (h2 : noDH l)
    (h3 : ∀ x, l.head? = some x → x ≠ '-')
    (h4 : ∀ x, l.getLast? = some x → x ≠ '-') :
    sanitizeChars l = l := by
  unfold sanitizeChars stripHyphens
  rw [camelSplit_fix l h1, mapToLower_fix l h1, replaceDisallowed_fix l h1,
    collapse_fix false l h2 (fun h => by cases h), dropWhile_dash_fix l h3,
    dropTrailing_fix l h4]

/-- C9: `_sanitize_filename` is idempotent: one pass produces a string of
`[a-z0-9-]` characters with no repeated hyphens and no hyphen at either
end, and every pipeline stage is the identity on such strings. -/
theorem claim_C9_sanitize_idempotent (s : String) :
    sanitizeFilename (sanitizeFilename s) = sanitizeFilename s := by
  show (⟨sanitizeChars (sanitizeChars s.data)⟩ : String) =
    ⟨sanitizeChars s.data⟩
  exact congrArg String.mk
    (sanitizeChars_fix _ (sanitizeChars_allowed _) (sanitizeChars_noDH _)
      (sanitizeChars_head _) (sanitizeChars_last _))

/-- C7 witness: the consolidation branch applied to the two concrete
fragments for `Type1` and `Type2`. -/
theorem claim_C7_witness :
    ([frag1Ex, frag2Ex].length ≠ 1) ∧
    (([frag1Ex, frag2Ex].map schemaName).Nodup) ∧
    (frag1Ex ∈ [frag1Ex, frag2Ex]) ∧
    (∃ props defs,
      generateSingleFileOutput [frag1Ex, frag2Ex] =
        .consolidated "Consolidated JSON Schema" props defs ∧
      dictGet defs (schemaName frag1Ex) = some (fragmentMinusId frag1Ex) ∧
      dictGet props (schemaName frag1Ex) =
        some ("#/definitions/" ++ schemaName frag1Ex)) :=
  ⟨by decide, by decide, by decide,
    claim_C7_single_file_assembly.2 [frag1Ex, frag2Ex] frag1Ex
      (by decide) (by decide) (by decide)⟩

end Xsd2Json
